import Mathlib

/-!
Shallow embedding of `samthor/promises` (src/index.js) and proofs about it.

The library provides four concurrency primitives over native promises:
`group` (a wait group / counting barrier), `dedup` (a call coalescer),
`makeSingle` (a latest-call-wins single-flight runner) and `event`
(a one-shot event-to-promise adapter).  Each primitive is embedded below as an
explicit state machine (closure-captured mutable variables become record
fields; promise settlement and microtask delivery become labelled events),
and the properties of interest are proved as theorems about runs of those
machines.
-/

namespace Promises

/-! ## Wait group (`group`, src/index.js lines 143-189)

The JS closure captures three variables: `count` (a number), `p` (the current
barrier promise or `null`) and `resolve` (its settlement handle or `null`).
`p` and `resolve` are always assigned and cleared together, so the model keeps
a single `barrier : Option Nat` field holding the identity (epoch number) of
the current barrier promise.

Settlements of tracked tasks arrive as microtasks; the model delivers them as
explicit events (`GEvent.succeed` / `GEvent.fail`).  The occupancy callback
is a user-supplied function of the transition direction.  Two callback
models are embedded: `Callback` (`Bool → Option Nat`), for callbacks whose
only interaction with the group is returning normally or throwing, and
`RCallback` with the interpreter `addTaskR` / `decR`, for callbacks that
additionally re-enter `addTask` while running — behaviour JS permits and
which changes what is reachable (see the C8 theorems).
-/

/-- Errors that can arise in the wait-group model.  `userError n` is an
arbitrary user-level exception value; the other three are the errors the
`group` code itself can raise: the `ReferenceError` caused by the undefined
identifier `currentResolve` in `resolveWithError` (line 148), the
`TypeError('got -ve count in group')` check in `dec` (line 152), and the
`TypeError('expective +ve count for Promise creation')` check at barrier
creation (line 177).  `typeErrorNullCall` models calling `resolve()` while
`resolve` is `null` (unreachable, but kept for totality). -/
inductive GErr
  | userError (n : Nat)
  | referenceError
  | typeErrorNegCount
  | typeErrorPosCount
  | typeErrorNullCall
  deriving DecidableEq

/-- Settlement of a barrier promise.  The type admits failures so that the
theorems can state that the code never produces one. -/
inductive Sett
  | success
  | failure (e : GErr)
  deriving DecidableEq

/-- Occupancy callback that does not re-enter the wait group: invoked with
`true` on empty→non-empty and `false` on non-empty→empty.  `some n` models
the callback throwing user error `n`.  Callbacks that re-enter `addTask`
(which JS permits) are modelled separately by `RCallback` / `addTaskR`
below; `Callback` is the no-re-entry restriction (see
`runGroupR_no_reentry`). -/
abbrev Callback := Bool → Option Nat

/-- What an `addTask` call hands back to its caller when it does not throw:
`fresh` is a newly created, already-successful awaitable (`Promise.resolve()`,
line 172); `barrier e` is the shared barrier promise with epoch `e`. -/
inductive AddResult
  | fresh
  | barrier (epoch : Nat)
  deriving DecidableEq

deriving instance DecidableEq for Except

/-- State of one wait group instance plus observation logs.
`count`, `barrier` embed the closure variables `count` and `p`/`resolve`;
`nextBarrier` and `nextTask` supply fresh identities; `pendingTasks` holds the
attached, not-yet-settled task handlers; `settled` records barrier
settlements; `callbackLog` records occupancy-callback invocations;
`uncaught` records errors that escape into a microtask (unhandled
rejections); `returns` records the outcome of each `addTask` call. -/
structure GroupState where
  count : Int
  barrier : Option Nat
  nextBarrier : Nat
  nextTask : Nat
  pendingTasks : List Nat
  settled : List (Nat × Sett)
  callbackLog : List Bool
  uncaught : List GErr
  returns : List (Except GErr AddResult)
  deriving DecidableEq

/-- The initial state of `group(callback)`: `count = 0`, `p = null`. -/
def initGroup : GroupState :=
  { count := 0, barrier := none, nextBarrier := 0, nextTask := 0,
    pendingTasks := [], settled := [], callbackLog := [], uncaught := [],
    returns := [] }

/-- Embedding of `dec` (src/index.js lines 149-166):

```js
const resolveWithError = (err) => currentResolve(Promise.reject(err));
const dec = () => {
  --count;
  if (count < 0) { throw new TypeError('got -ve count in group'); }
  else if (count > 0) { return; }
  try { callback(false); } catch (e) { resolveWithError(e); }
  resolve();
  p = null;
  resolve = null;
};
```

`currentResolve` is not defined anywhere in the module, so evaluating
`resolveWithError` raises a `ReferenceError` before settling anything.
Consequently, when `callback(false)` throws, the `catch` block itself raises
`ReferenceError`, `dec` aborts, and `resolve()` / `p = null` never run.
`dec` always executes inside a `.then` reaction, so an error it raises
becomes an unhandled rejection (`uncaught`). -/
def dec (cb : Callback) (s : GroupState) : GroupState :=
  let c := s.count - 1
  if c < 0 then
    { s with count := c, uncaught := s.uncaught ++ [GErr.typeErrorNegCount] }
  else if c > 0 then
    { s with count := c }
  else
    match cb false with
    | some _ =>
      { s with
        count := c
        callbackLog := s.callbackLog ++ [false]
        uncaught := s.uncaught ++ [GErr.referenceError] }
    | none =>
      match s.barrier with
      | none =>
        { s with
          count := c
          callbackLog := s.callbackLog ++ [false]
          uncaught := s.uncaught ++ [GErr.typeErrorNullCall] }
      | some e =>
        { s with
          count := c
          callbackLog := s.callbackLog ++ [false]
          settled := s.settled ++ [(e, Sett.success)]
          barrier := none }

/-- Embedding of the returned `addTask` function (src/index.js lines 168-188):

```js
return function(task=undefined) {
  const promiseWasNull = (p === null);
  if (promiseWasNull) {
    if (task === undefined) { return Promise.resolve(); }
    ({promise: p, resolve} = resolvable());
    if (count !== 0) { throw new TypeError('expective +ve count for Promise creation'); }
  } else if (task === undefined) { return p; }
  ++count;
  toPromise(task).catch(resolveWithError).then(dec);
  promiseWasNull && callback(true);
  return p;
};
```

`withTask = false` is the `task === undefined` case.  Attaching the
`.catch(...).then(dec)` chain registers a fresh pending handler; its eventual
settlement is delivered later by a `GEvent`.  Note that the positive-count
`TypeError` is thrown after `p` has already been reassigned, and that a throw
from `callback(true)` reaches the caller after the task was fully tracked. -/
def addTask (cb : Callback) (s : GroupState) (withTask : Bool) :
    Except GErr AddResult × GroupState :=
  match s.barrier with
  | none =>
    if withTask = false then
      (Except.ok AddResult.fresh, s)
    else
      let e := s.nextBarrier
      let s1 := { s with barrier := some e, nextBarrier := e + 1 }
      if s.count ≠ 0 then
        (Except.error GErr.typeErrorPosCount, s1)
      else
        let s2 := { s1 with
                    count := s1.count + 1
                    pendingTasks := s1.pendingTasks ++ [s1.nextTask]
                    nextTask := s1.nextTask + 1 }
        match cb true with
        | some n =>
          (Except.error (GErr.userError n),
           { s2 with callbackLog := s2.callbackLog ++ [true] })
        | none =>
          (Except.ok (AddResult.barrier e),
           { s2 with callbackLog := s2.callbackLog ++ [true] })
  | some e =>
    if withTask = false then
      (Except.ok (AddResult.barrier e), s)
    else
      (Except.ok (AddResult.barrier e),
       { s with
         count := s.count + 1
         pendingTasks := s.pendingTasks ++ [s.nextTask]
         nextTask := s.nextTask + 1 })

/-- Events a wait group can experience through its public interface:
an `addTask` call (with or without a task argument), or the settlement of a
previously attached task handler.  `fail tid err` is the task rejecting with
user error `err`. -/
inductive GEvent
  | add (withTask : Bool)
  | succeed (tid : Nat)
  | fail (tid : Nat) (err : Nat)

/-- One step of the wait-group trace semantics.  On `add`, run `addTask` and
log its outcome.  On `succeed`, the chain `toPromise(task).catch(resolveWithError).then(dec)`
skips the `catch` handler and calls `dec`.  On `fail`, the `catch` handler
`resolveWithError` runs and raises `ReferenceError` (undefined
`currentResolve`), so the chain rejects without ever calling `dec`: the
barrier is not settled and the count is not decremented.  Settlement events
for unknown handlers are ignored (each handler settles at most once). -/
def groupStep (cb : Callback) (s : GroupState) (ev : GEvent) : GroupState :=
  match ev with
  | GEvent.add w =>
    let r := addTask cb s w
    { r.2 with returns := r.2.returns ++ [r.1] }
  | GEvent.succeed tid =>
    if tid ∈ s.pendingTasks then
      dec cb { s with pendingTasks := s.pendingTasks.erase tid }
    else s
  | GEvent.fail tid _ =>
    if tid ∈ s.pendingTasks then
      { s with
        pendingTasks := s.pendingTasks.erase tid
        uncaught := s.uncaught ++ [GErr.referenceError] }
    else s

/-- Run a wait group from its initial state over a list of events. -/
def runGroup (cb : Callback) (evs : List GEvent) : GroupState :=
  evs.foldl (groupStep cb) initGroup

/-- Absence of the fatal internal-consistency errors, in both the
asynchronous (`uncaught`) and synchronous (`returns`) error channels. -/
def NoFatal (s : GroupState) : Prop :=
  GErr.typeErrorNegCount ∉ s.uncaught ∧
  GErr.typeErrorPosCount ∉ s.uncaught ∧
  GErr.typeErrorNullCall ∉ s.uncaught ∧
  Except.error GErr.typeErrorNegCount ∉ s.returns ∧
  Except.error GErr.typeErrorPosCount ∉ s.returns ∧
  Except.error GErr.typeErrorNullCall ∉ s.returns

/-- Inductive invariant of reachable wait-group states. -/
def GroupInv (s : GroupState) : Prop :=
  0 ≤ s.count ∧ (s.pendingTasks.length : Int) ≤ s.count ∧
  (s.barrier = none → s.count = 0) ∧ NoFatal s

/-- A callback that throws user error 3 when reporting the
non-empty→empty transition. -/
def cbThrowFalse : Callback := fun b => if b then none else some 3

/-- A callback that throws user error 5 when reporting the
empty→non-empty transition. -/
def cbThrowTrue : Callback := fun b => if b then some 5 else none

/-- A state with one outstanding batch (barrier epoch 0, one tracked task). -/
def groupStateBusy : GroupState :=
  { count := 1, barrier := some 0, nextBarrier := 1, nextTask := 1,
    pendingTasks := [0], settled := [], callbackLog := [true], uncaught := [],
    returns := [] }

/-! ### Re-entrant occupancy callbacks

JS also permits an occupancy callback to call `addTask` again while it runs.
One invocation of such a callback is modelled as a script: the list of
re-entrant `addTask` calls it performs (their `withTask` flags; the calls'
return values — promises, or an exception the script chooses to catch — do
not feed back into the group's state beyond what the calls themselves do),
followed by returning normally or throwing.  A callback that stops after a
re-entrant call threw is the same script cut short at that call.  The
behaviour may differ per invocation: the script is selected by the number of
previous callback invocations (`callbackLog.length`) and the transition
direction. -/

/-- One occupancy-callback invocation in the re-entrant model: perform the
listed re-entrant `addTask` calls, then return normally (`thrown = none`) or
throw user error `n` (`thrown = some n`). -/
structure RAct where
  adds : List Bool
  thrown : Option Nat

/-- A re-entrant occupancy callback: invocation number and transition
direction select the script for that invocation. -/
abbrev RCallback := Nat → Bool → RAct

/-- `addTask` under a re-entrant occupancy callback.  Identical to `addTask`
except that `callback(true)` (still performed last, line 186) may itself call
`addTask`: its script's calls run before its return/throw is observed.
During `callback(true)` the barrier `p` was just created and no `dec` can run
synchronously, so `p` is still the epoch `e` at `return p`.  `fuel` bounds
the nesting depth of callback invocations; the `0` case is never reached
when `fuel` exceeds the nesting depth of the run (a fuel-starved call acts
as a no-op, like `addTask()` on an empty group). -/
def addTaskR (rcb : RCallback) : Nat → GroupState → Bool →
    Except GErr AddResult × GroupState
  | 0, s, _ => (Except.ok AddResult.fresh, s)
  | fuel + 1, s, withTask =>
    match s.barrier with
    | none =>
      if withTask = false then
        (Except.ok AddResult.fresh, s)
      else
        let e := s.nextBarrier
        let s1 := { s with barrier := some e, nextBarrier := e + 1 }
        if s.count ≠ 0 then
          (Except.error GErr.typeErrorPosCount, s1)
        else
          let s2 := { s1 with
                      count := s1.count + 1
                      pendingTasks := s1.pendingTasks ++ [s1.nextTask]
                      nextTask := s1.nextTask + 1 }
          let act := rcb s2.callbackLog.length true
          let s3 := { s2 with callbackLog := s2.callbackLog ++ [true] }
          let s4 := act.adds.foldl (fun st w => (addTaskR rcb fuel st w).2) s3
          (match act.thrown with
           | some n => Except.error (GErr.userError n)
           | none => Except.ok (AddResult.barrier e), s4)
    | some e =>
      if withTask = false then
        (Except.ok (AddResult.barrier e), s)
      else
        (Except.ok (AddResult.barrier e),
         { s with
           count := s.count + 1
           pendingTasks := s.pendingTasks ++ [s.nextTask]
           nextTask := s.nextTask + 1 })

/-- `dec` under a re-entrant occupancy callback.  The `callback(false)`
script's re-entrant `addTask` calls run with the count already decremented
and `p` not yet cleared (lines 157-165); afterwards, `resolve()` and
`p = null` act on whatever the *current* barrier is — the script's calls may
have replaced it.  A throwing callback is still routed to
`resolveWithError`, whose `ReferenceError` aborts `dec` exactly as in
`dec`. -/
def decR (rcb : RCallback) (fuel : Nat) (s : GroupState) : GroupState :=
  let c := s.count - 1
  if c < 0 then
    { s with count := c, uncaught := s.uncaught ++ [GErr.typeErrorNegCount] }
  else if c > 0 then
    { s with count := c }
  else
    let act := rcb s.callbackLog.length false
    let s1 := { s with count := c, callbackLog := s.callbackLog ++ [false] }
    let s2 := act.adds.foldl (fun st w => (addTaskR rcb fuel st w).2) s1
    match act.thrown with
    | some _ =>
      { s2 with uncaught := s2.uncaught ++ [GErr.referenceError] }
    | none =>
      match s2.barrier with
      | none =>
        { s2 with uncaught := s2.uncaught ++ [GErr.typeErrorNullCall] }
      | some e =>
        { s2 with
          settled := s2.settled ++ [(e, Sett.success)]
          barrier := none }

/-- One step of the wait-group trace semantics under a re-entrant callback;
the event alphabet is unchanged. -/
def groupStepR (rcb : RCallback) (fuel : Nat) (s : GroupState) (ev : GEvent) :
    GroupState :=
  match ev with
  | GEvent.add w =>
    let r := addTaskR rcb fuel s w
    { r.2 with returns := r.2.returns ++ [r.1] }
  | GEvent.succeed tid =>
    if tid ∈ s.pendingTasks then
      decR rcb fuel { s with pendingTasks := s.pendingTasks.erase tid }
    else s
  | GEvent.fail tid _ =>
    if tid ∈ s.pendingTasks then
      { s with
        pendingTasks := s.pendingTasks.erase tid
        uncaught := s.uncaught ++ [GErr.referenceError] }
    else s

/-- Run a wait group with a re-entrant occupancy callback. -/
def runGroupR (rcb : RCallback) (fuel : Nat) (evs : List GEvent) : GroupState :=
  evs.foldl (groupStepR rcb fuel) initGroup

/-- The part of the wait-group invariant that survives re-entrant callbacks:
the count is non-negative (it dominates the number of attached, unsettled
handlers) and the negative-count `TypeError` is unreachable. -/
def RInv (s : GroupState) : Prop :=
  0 ≤ s.count ∧ (s.pendingTasks.length : Int) ≤ s.count ∧
  GErr.typeErrorNegCount ∉ s.uncaught ∧
  Except.error GErr.typeErrorNegCount ∉ s.returns

/-- The re-entering callback of the C8 counterexample: on every
non-empty→empty transition it calls `addTask(task)` once and returns. -/
def rcbReenter : RCallback :=
  fun _ b => if b then { adds := [], thrown := none }
             else { adds := [true], thrown := none }

/-! ## Event adapter (`event`, src/index.js lines 51-60)

```js
export function event(target, name) {
  return new Promise((resolve) => {
    const handler = () => {
      resolve();
      target.removeEventListener(name, handler);
    };
    target.addEventListener(name, handler);
  });
}
```

The handler takes no parameter and calls `resolve()` with no argument, so the
promise fulfils with `undefined` rather than with the dispatched `Event`
object.  The model tracks whether the handler is attached, how many times it
was added/removed, and the promise's settlement: `none` is pending,
`some none` is fulfilled with `undefined`, `some (some k)` would be fulfilled
with the `Event` object of identity `k`. -/

structure EventState where
  listenerAttached : Bool
  addCount : Nat
  removeCount : Nat
  result : Option (Option Nat)
  deriving DecidableEq

/-- State right after `event(target, name)` returns: one listener added. -/
def eventInit : EventState :=
  { listenerAttached := true, addCount := 1, removeCount := 0, result := none }

/-- One dispatch of the subscribed event carrying the `Event` object `evObj`.
If the handler is attached it runs: `resolve()` (first settlement wins, with
no argument, i.e. `undefined`), then `removeEventListener`.  The dispatched
`Event` object is ignored by the handler. -/
def eventFire (s : EventState) (_evObj : Nat) : EventState :=
  if s.listenerAttached then
    { listenerAttached := false, addCount := s.addCount,
      removeCount := s.removeCount + 1,
      result := if s.result = none then some none else s.result }
  else s

/-- Run the adapter over a sequence of event dispatches. -/
def runEvent (fires : List Nat) : EventState :=
  fires.foldl eventFire eventInit

/-! ## Call coalescer (`dedup`, src/index.js lines 72-88)

```js
export function dedup(fn, delayer) {
  let p = null;
  let lastArguments;
  return function(...args) {
    lastArguments = args;
    if (p === null) {
      p = delayer().then(() => {
        const args = lastArguments;
        p = null;
        lastArguments = undefined;
        return fn(...args);
      });
    }
    return p;
  };
}
```

Argument lists are modelled as `List Nat`, `fn` as `List Nat → Except Nat Nat`
(`Except.error n` models `fn` throwing user error `n`, which rejects the
window promise).  `p` is the pending window promise, identified by an epoch
number; `DEvent.elapse` is the settlement of the current window's
`delayer()` promise, which runs the `.then` handler above. -/

/-- The coalesced function `fn`: produces a value or throws. -/
abbrev Fn := List Nat → Except Nat Nat

structure DedupState where
  p : Option Nat
  lastArguments : Option (List Nat)
  nextWindow : Nat
  callReturns : List Nat
  invocations : List (List Nat)
  windowResults : List (Nat × Except Nat Nat)
  deriving DecidableEq

/-- Events for one coalescer instance: a call with arguments, or the current
delay window elapsing. -/
inductive DEvent
  | call (args : List Nat)
  | elapse

/-- One step of the coalescer.  A call overwrites `lastArguments`
unconditionally, creates a window (and returns its promise) if none is
pending, and otherwise returns the pending window's promise.  When the window
elapses, the handler reads back the latest arguments, clears `p` and
`lastArguments`, and invokes `fn`, settling the window promise with its
outcome. -/
def dedupStep (fn : Fn) (s : DedupState) (ev : DEvent) : DedupState :=
  match ev with
  | DEvent.call args =>
    match s.p with
    | some w =>
      { s with lastArguments := some args, callReturns := s.callReturns ++ [w] }
    | none =>
      { s with
        lastArguments := some args
        p := some s.nextWindow
        nextWindow := s.nextWindow + 1
        callReturns := s.callReturns ++ [s.nextWindow] }
  | DEvent.elapse =>
    match s.p with
    | none => s
    | some w =>
      let args := s.lastArguments.getD []
      { s with
        p := none
        lastArguments := none
        invocations := s.invocations ++ [args]
        windowResults := s.windowResults ++ [(w, fn args)] }

/-- The initial state of `dedup(fn, delayer)`. -/
def initDedup : DedupState :=
  { p := none, lastArguments := none, nextWindow := 0, callReturns := [],
    invocations := [], windowResults := [] }

/-- A concrete coalesced function for witnesses: returns its first argument. -/
def fnHead : Fn := fun args => Except.ok (args.headD 0)

/-! ## Single-flight runner (`makeSingle`, src/index.js lines 105-130)

```js
export function makeSingle(generator) {
  let previousPromise;
  let previousResolve = noop;
  return async function(...args) {
    previousResolve(abortSymbol);
    ({promise: previousPromise, resolve: previousResolve} = resolvable());
    const localSinglePromise = previousPromise;
    const iter = generator(...args);
    let resumeValue;
    for (;;) {
      const n = iter.next(resumeValue);
      if (n.done) { return n.value; }
      resumeValue = await Promise.race([toPromise(n.value), localSinglePromise]);
      if (resumeValue === abortSymbol) { return takeoverSymbol; }
    }
  };
}
```

The model uses the host's single-threaded turn structure: external code (the
calls to the single-flight function, and the settlements of the awaitables
the generator yields) runs in numbered synchronous turns; after each turn the
microtask queue drains completely.  A generator is a pure function of the
call arguments and the list of values it has been resumed with so far; it
either yields an awaitable (identified by a number; its settlement turn and
value are given by a schedule) or finishes with a value.  Awaitables that are
plain values or already settled are those whose schedule turn is at most the
current turn.

Race semantics, derived from the promise job queue (and checked on the
explicit queue machine `mdrain` below): the driver awaits
`Promise.race([toPromise(y), localSinglePromise])`.  `toPromise` is an async
function, so its result adopts `y` through a thenable job: delivering `y`'s
value to the race costs at least two queued jobs after `y` settles, while the
abort channel (a plain `resolvable()` promise) delivers in one job.  Hence in
any turn in which both could deliver, the abort wins; the yielded value can
only win when it settles in a turn strictly before the abort settles and the
race is in flight (and then the generator resumes in that same drain). -/

/-- One step of a generator: after being resumed with the listed values it
either yields awaitable `aw` or returns `v`. -/
inductive GenStep
  | yields (aw : Nat)
  | done (v : Nat)
  deriving DecidableEq

/-- A generator function: call arguments and resume history to next step. -/
abbrev Gen := List Nat → List Nat → GenStep

/-- External settlement schedule: awaitable id to (turn, value), or `none`
when that awaitable never settles.  Only success settlements are modelled
(the claims below quantify over settlement interleavings, not failures). -/
abbrev Sched := Nat → Option (Nat × Nat)

/-- Resolution of one `Promise.race([toPromise(y), localSinglePromise])`. -/
inductive RaceResult
  | aborted
  | resumed (v : Nat) (turn : Nat)
  | stuck
  deriving DecidableEq

/-- The race performed at (resumption) turn `tNow` for the yielded awaitable
`aw`, with the invocation's abort channel settling at turn `abortTurn`
(`none` while no newer call has taken over).  The yielded value would resume
the generator in the drain of turn `max tNow tY`; the abort delivers in the
drain of turn `ta` with one fewer queued hop, so the abort wins exactly when
`ta ≤ max tNow tY` (and always when `aw` never settles). -/
def stepRace (sched : Sched) (abortTurn : Option Nat) (tNow : Nat) (aw : Nat) :
    RaceResult :=
  match sched aw, abortTurn with
  | none, none => RaceResult.stuck
  | none, some _ => RaceResult.aborted
  | some (tY, v), none => RaceResult.resumed v (max tNow tY)
  | some (tY, v), some ta =>
    if ta ≤ max tNow tY then RaceResult.aborted
    else RaceResult.resumed v (max tNow tY)

/-- Result of one invocation of the single-flight function:
`value v turn k` is a normal completion with the generator's return value `v`
in the drain of `turn` after `k` resumptions; `takeover` is resolution with
`takeoverSymbol`; `pending` means the invocation never resolves (or the fuel
ran out). -/
inductive InvOutcome
  | value (v : Nat) (turn : Nat) (resumptions : Nat)
  | takeover
  | pending
  deriving DecidableEq

/-- The driver loop of `makeSingle` for one invocation: step the generator;
on `done` return its value; on a yield, race the awaitable against the abort
channel; resume on the awaitable's value, or return `takeoverSymbol` when the
abort wins.  `fuel` bounds the number of generator steps considered. -/
def runSteps (gen : Gen) (args : List Nat) (abortTurn : Option Nat)
    (sched : Sched) : Nat → List Nat → Nat → InvOutcome
  | 0, _, _ => InvOutcome.pending
  | fuel + 1, resumes, tNow =>
    match gen args resumes with
    | GenStep.done v => InvOutcome.value v tNow resumes.length
    | GenStep.yields aw =>
      match stepRace sched abortTurn tNow aw with
      | RaceResult.aborted => InvOutcome.takeover
      | RaceResult.stuck => InvOutcome.pending
      | RaceResult.resumed v t => runSteps gen args abortTurn sched fuel (resumes ++ [v]) t

/-- One invocation started in turn `t0` whose abort channel is settled at
turn `abortTurn` (by the next call to the single-flight function). -/
def runInvocation (gen : Gen) (args : List Nat) (t0 : Nat)
    (abortTurn : Option Nat) (sched : Sched) (fuel : Nat) : InvOutcome :=
  runSteps gen args abortTurn sched fuel [] t0

/-- A sequence of calls to one single-flight function, each given as
(turn, arguments), in chronological order (same-turn calls in list order).
Each call settles the previous call's abort channel first (line 110), so the
abort turn of call `i` is the turn of call `i + 1`. -/
def runCalls (gen : Gen) (sched : Sched) (fuel : Nat) :
    List (Nat × List Nat) → List InvOutcome
  | [] => []
  | c :: rest =>
    runInvocation gen c.2 c.1 (rest.head?.map Prod.fst) sched fuel ::
      runCalls gen sched fuel rest

/-- Does the outcome carry the generator's true return value? -/
def isTrueValue : InvOutcome → Bool
  | InvOutcome.value _ _ _ => true
  | _ => false

/-- The relation between consecutive calls in a burst: the earlier call's
generator suspends at its first step, and the later call starts no later
than the turn in which that first suspension would resume. -/
def burstCond (gen : Gen) (sched : Sched) (p q : Nat × List Nat) : Prop :=
  ∃ aw, gen p.2 [] = GenStep.yields aw ∧
    ∀ tY v, sched aw = some (tY, v) → q.1 ≤ max p.1 tY

/-! ### Microtask queue machine for one race

This is the promise job queue restricted to the promises of one
`resumeValue = await Promise.race([toPromise(y), localSinglePromise])` whose
participants are already settled: `y` (fulfilled with `v`), `T = toPromise(y)`
(pending, being resolved with the thenable `y`), `L` (the abort channel,
fulfilled with `abortSymbol`), and the race promise `R` (pending, with
reactions attached to `T` and `L`). -/

/-- Jobs: `thenableJob v` is the `PromiseResolveThenableJob` making `T` adopt
the settled `y` (it calls `y.then`, which enqueues `yToT v`); `yToT v`
fulfils `T` with `v` (which enqueues the race reaction `tToR v`); `lToR`
delivers `abortSymbol` from `L` to `R`; `tToR v` delivers `v` from `T` to
`R`.  `R` keeps its first settlement. -/
inductive MJob
  | thenableJob (v : Nat)
  | yToT (v : Nat)
  | lToR
  | tToR (v : Nat)
  deriving DecidableEq

/-- What settled the race promise. -/
inductive RaceWin
  | abortSymbolWin
  | valueWin (v : Nat)
  deriving DecidableEq

/-- The race promise's settlement plus the job queue. -/
structure MState where
  raceResult : Option RaceWin
  queue : List MJob
  deriving DecidableEq

/-- Process the job at the head of the queue (FIFO). -/
def mstep (s : MState) : MState :=
  match s.queue with
  | [] => s
  | job :: rest =>
    match job with
    | MJob.thenableJob v => { s with queue := rest ++ [MJob.yToT v] }
    | MJob.yToT v => { s with queue := rest ++ [MJob.tToR v] }
    | MJob.lToR =>
      { raceResult := if s.raceResult = none then some RaceWin.abortSymbolWin
                      else s.raceResult,
        queue := rest }
    | MJob.tToR v =>
      { raceResult := if s.raceResult = none then some (RaceWin.valueWin v)
                      else s.raceResult,
        queue := rest }

/-- Drain at most `n` jobs from the queue. -/
def mdrain : Nat → MState → MState
  | 0, s => s
  | n + 1, s => mdrain n (mstep s)

/-- A generator that ignores the yield protocol and returns its first
argument immediately (no suspension). -/
def genConst : Gen := fun args _ => GenStep.done (args.headD 0)

/-- A generator that yields awaitable 0 once and then returns its first
argument, like the one in the repository's test suite. -/
def genOnce : Gen := fun args resumes =>
  match resumes with
  | [] => GenStep.yields 0
  | _ :: _ => GenStep.done (args.headD 0)

/-- A schedule where awaitable 0 settles in turn 1 with value 50. -/
def schedTurn1 : Sched := fun aw => if aw = 0 then some (1, 50) else none

/-- A schedule where awaitable 0 settles in turn 2 with value 99. -/
def schedTurn2 : Sched := fun aw => if aw = 0 then some (2, 99) else none

/-- A schedule where awaitable 0 is already settled in turn 0 with value 4. -/
def schedTurn0 : Sched := fun aw => if aw = 0 then some (0, 4) else none

/-! ## Theorems: wait group -/

/-- The initial wait-group state satisfies the invariant. -/
theorem groupInv_init : GroupInv initGroup := by
  refine ⟨by norm_num [initGroup], by norm_num [initGroup], fun _ => rfl, ?_⟩
  simp [NoFatal, initGroup]

/-- `addTask` preserves the invariant and never throws one of the fatal
internal-consistency errors. -/
theorem groupInv_add (cb : Callback) (s : GroupState) (w : Bool)
    (h : GroupInv s) : GroupInv (groupStep cb s (GEvent.add w)) := by
  obtain ⟨h0, hlen, hempty, u1, u2, u3, r1, r2, r3⟩ := h
  cases hb : s.barrier with
  | none =>
    have hc : s.count = 0 := hempty hb
    have hplen : s.pendingTasks = [] := by
      have h2 := hlen
      rw [hc] at h2
      have h3 : s.pendingTasks.length = 0 := by omega
      exact List.eq_nil_of_length_eq_zero h3
    cases w with
    | false =>
      simp only [groupStep, addTask, hb]
      norm_num
      refine ⟨h0, hlen, fun _ => hc, ?_, ?_, ?_, ?_, ?_, ?_⟩ <;>
        simp_all [NoFatal]
    | true =>
      simp only [groupStep, addTask, hb, hc]
      norm_num
      cases hcb : cb true with
      | some n =>
        dsimp only
        refine ⟨by dsimp only; omega, by simp [hplen], by simp, ?_, ?_, ?_, ?_, ?_, ?_⟩ <;>
          simp_all
      | none =>
        dsimp only
        refine ⟨by dsimp only; omega, by simp [hplen], by simp, ?_, ?_, ?_, ?_, ?_, ?_⟩ <;>
          simp_all
  | some e =>
    cases w with
    | false =>
      simp only [groupStep, addTask, hb]
      norm_num
      refine ⟨h0, hlen, hempty, ?_, ?_, ?_, ?_, ?_, ?_⟩ <;>
        simp_all
    | true =>
      simp only [groupStep, addTask, hb]
      norm_num
      refine ⟨by dsimp only; omega, by dsimp only; simp; omega,
        by dsimp only; intro hbn; simp [hb] at hbn, ?_, ?_, ?_, ?_, ?_, ?_⟩ <;>
        simp_all

/-- `dec` preserves the invariant whenever it runs with a positive count and
a live barrier (which is how the reachable call sites invoke it): the
decremented count stays non-negative and no fatal error is raised. -/
theorem groupInv_dec (cb : Callback) (s : GroupState) (e : Nat)
    (h1 : 1 ≤ s.count) (hlen : (s.pendingTasks.length : Int) ≤ s.count - 1)
    (hb : s.barrier = some e)
    (u1 : GErr.typeErrorNegCount ∉ s.uncaught)
    (u2 : GErr.typeErrorPosCount ∉ s.uncaught)
    (u3 : GErr.typeErrorNullCall ∉ s.uncaught)
    (r1 : Except.error GErr.typeErrorNegCount ∉ s.returns)
    (r2 : Except.error GErr.typeErrorPosCount ∉ s.returns)
    (r3 : Except.error GErr.typeErrorNullCall ∉ s.returns) :
    GroupInv (dec cb s) := by
  unfold dec
  have hnn : ¬ s.count - 1 < 0 := by omega
  rw [if_neg hnn]
  split
  case isTrue hpos =>
    refine ⟨by dsimp only; omega, by dsimp only; omega,
      by dsimp only; intro hbn; rw [hb] at hbn; exact Option.noConfusion hbn,
      ?_, ?_, ?_, ?_, ?_, ?_⟩ <;> simp_all
  case isFalse hnpos =>
    have hzero : s.count - 1 = 0 := by omega
    cases hcb : cb false with
    | some n =>
      refine ⟨by dsimp only; omega, by dsimp only; omega,
        by dsimp only; intro hbn; rw [hb] at hbn; exact Option.noConfusion hbn,
        ?_, ?_, ?_, ?_, ?_, ?_⟩ <;> simp_all
    | none =>
      rw [hb]
      dsimp only
      refine ⟨by dsimp only; omega, by dsimp only; omega,
        by dsimp only; intro hbn; omega,
        ?_, ?_, ?_, ?_, ?_, ?_⟩ <;> simp_all

/-- Task-success settlement preserves the invariant. -/
theorem groupInv_succeed (cb : Callback) (s : GroupState) (tid : Nat)
    (h : GroupInv s) : GroupInv (groupStep cb s (GEvent.succeed tid)) := by
  obtain ⟨h0, hlen, hempty, u1, u2, u3, r1, r2, r3⟩ := h
  simp only [groupStep]
  split
  case isFalse =>
    exact ⟨h0, hlen, hempty, u1, u2, u3, r1, r2, r3⟩
  case isTrue hmem =>
    have hne : s.pendingTasks ≠ [] := List.ne_nil_of_mem hmem
    have hlpos : 1 ≤ s.pendingTasks.length := List.length_pos.mpr hne
    have herase : (s.pendingTasks.erase tid).length = s.pendingTasks.length - 1 :=
      List.length_erase_of_mem hmem
    have hcpos : 1 ≤ s.count := le_trans (by exact_mod_cast hlpos) hlen
    cases hbs : s.barrier with
    | none =>
      have := hempty hbs
      omega
    | some e =>
      refine groupInv_dec cb _ e (by dsimp only; omega) ?_ (by simp [hbs])
        u1 u2 u3 r1 r2 r3
      dsimp only
      rw [herase]
      push_cast [Nat.cast_sub hlpos]
      omega

/-- Task-failure settlement preserves the invariant: `resolveWithError`
raises only a `ReferenceError`, and `dec` is not reached. -/
theorem groupInv_fail (cb : Callback) (s : GroupState) (tid : Nat) (err : Nat)
    (h : GroupInv s) : GroupInv (groupStep cb s (GEvent.fail tid err)) := by
  obtain ⟨h0, hlen, hempty, u1, u2, u3, r1, r2, r3⟩ := h
  simp only [groupStep]
  split
  case isFalse =>
    exact ⟨h0, hlen, hempty, u1, u2, u3, r1, r2, r3⟩
  case isTrue hmem =>
    have hlpos : 1 ≤ s.pendingTasks.length :=
      List.length_pos.mpr (List.ne_nil_of_mem hmem)
    have herase : (s.pendingTasks.erase tid).length = s.pendingTasks.length - 1 :=
      List.length_erase_of_mem hmem
    refine ⟨h0, ?_, hempty, ?_, ?_, ?_, r1, r2, r3⟩
    · dsimp only
      rw [herase]
      push_cast [Nat.cast_sub hlpos]
      omega
    all_goals simp_all

/-- Every state reachable through the public interface satisfies the
invariant. -/
theorem groupInv_run (cb : Callback) (evs : List GEvent) :
    GroupInv (runGroup cb evs) := by
  have main : ∀ (l : List GEvent) (s : GroupState), GroupInv s →
      GroupInv (l.foldl (groupStep cb) s) := by
    intro l
    induction l with
    | nil => intro s hs; exact hs
    | cons e rest ih =>
      intro s hs
      refine ih _ ?_
      cases e with
      | add w => exact groupInv_add cb s w hs
      | succeed tid => exact groupInv_succeed cb s tid hs
      | fail tid err => exact groupInv_fail cb s tid err hs
  exact main evs initGroup groupInv_init

/-- C1.  The claim says a tracked task's failure settles the barrier with
that failure.  The code refutes it: the rejection handler `resolveWithError`
(line 148) calls the undefined identifier `currentResolve`, so it raises a
`ReferenceError` instead of settling anything; `dec` is skipped.  Concretely,
after `addTask(task)` and the task rejecting with user error 7, the barrier
(epoch 0) is still pending (`settled = []`), the count was never decremented
(still 1), and the `ReferenceError` escaped as an unhandled rejection. -/
theorem group_task_failure_leaves_barrier_pending :
    runGroup (fun _ => none) [GEvent.add true, GEvent.fail 0 7] =
      { count := 1, barrier := some 0, nextBarrier := 1, nextTask := 1,
        pendingTasks := [], settled := [], callbackLog := [true],
        uncaught := [GErr.referenceError],
        returns := [Except.ok (AddResult.barrier 0)] } := by
  decide

/-- C2.  The claim says an occupancy-callback throw on the non-empty→empty
transition is captured and becomes the barrier's failure.  The code refutes
it: the `catch` block routes the error to `resolveWithError`, which raises a
`ReferenceError` (undefined `currentResolve`); `dec` aborts, so the barrier
(epoch 0) is never settled at all (`settled = []`, `barrier` is not even
cleared) and the `ReferenceError` — not the callback's error — escapes as an
unhandled rejection.  Nothing is propagated synchronously, but nothing
reaches the barrier's awaiters either. -/
theorem group_callback_throw_is_not_captured :
    runGroup cbThrowFalse [GEvent.add true, GEvent.succeed 0] =
      { count := 0, barrier := some 0, nextBarrier := 1, nextTask := 1,
        pendingTasks := [], settled := [], callbackLog := [true, false],
        uncaught := [GErr.referenceError],
        returns := [Except.ok (AddResult.barrier 0)] } := by
  decide

/-- C7.  `addTask()` with no argument returns a freshly created,
already-successful awaitable (`Promise.resolve()`, modelled by
`AddResult.fresh`) when the group has no outstanding batch (`p === null`),
and returns the current shared barrier (epoch `e`) when it has one — the
same barrier every adder of the outstanding batch receives, as the third
conjunct shows for `addTask(task)`.  The state is untouched in both query
cases. -/
theorem group_addTask_noarg_fresh_or_shared (cb : Callback) (s : GroupState) :
    (s.barrier = none → addTask cb s false = (Except.ok AddResult.fresh, s)) ∧
    (∀ e, s.barrier = some e →
      addTask cb s false = (Except.ok (AddResult.barrier e), s) ∧
      (addTask cb s true).1 = Except.ok (AddResult.barrier e)) := by
  constructor
  · intro hb
    simp [addTask, hb]
  · intro e hb
    constructor <;> simp [addTask, hb]

/-- Witness for C7 at concrete states: the empty group and a busy group. -/
theorem group_addTask_noarg_fresh_or_shared_w :
    addTask cbThrowFalse initGroup false = (Except.ok AddResult.fresh, initGroup) ∧
    addTask cbThrowFalse groupStateBusy false =
      (Except.ok (AddResult.barrier 0), groupStateBusy) :=
  ⟨(group_addTask_noarg_fresh_or_shared cbThrowFalse initGroup).1 rfl,
   ((group_addTask_noarg_fresh_or_shared cbThrowFalse groupStateBusy).2 0 rfl).1⟩

/-- A chain of re-entrant `addTask` calls preserves `RInv` whenever each
single call does. -/
theorem rInv_foldl_addTaskR (rcb : RCallback) (fuel : Nat)
    (hstep : ∀ (s : GroupState) (w : Bool),
      RInv s → RInv (addTaskR rcb fuel s w).2) :
    ∀ (l : List Bool) (s : GroupState), RInv s →
      RInv (l.foldl (fun st w => (addTaskR rcb fuel st w).2) s) := by
  intro l
  induction l with
  | nil => intro s h; exact h
  | cons a rest ihl =>
    intro s h
    exact ihl _ (hstep s a h)

/-- `addTaskR` preserves `RInv` for every fuel: each branch increments the
count together with the attached-handler list (or touches neither), and the
nested callback invocations only perform further such calls. -/
theorem rInv_addTaskR (rcb : RCallback) :
    ∀ (fuel : Nat) (s : GroupState) (w : Bool),
      RInv s → RInv (addTaskR rcb fuel s w).2 := by
  intro fuel
  induction fuel with
  | zero =>
    intro s w h
    simpa [addTaskR] using h
  | succ f ih =>
    intro s w h
    obtain ⟨h0, hlen, hu, hr⟩ := h
    cases hb : s.barrier with
    | none =>
      cases w with
      | false =>
        simp only [addTaskR, hb]
        exact ⟨h0, hlen, hu, hr⟩
      | true =>
        simp only [addTaskR, hb]
        by_cases hc : s.count ≠ 0
        · rw [if_pos hc]
          exact ⟨h0, hlen, hu, hr⟩
        · rw [if_neg hc]
          have hc0 : s.count = 0 := by omega
          have hl0 : s.pendingTasks.length = 0 := by omega
          try dsimp only
          refine rInv_foldl_addTaskR rcb f ih _ _ ?_
          refine ⟨?_, ?_, hu, hr⟩
          · try dsimp only
            omega
          · try dsimp only
            simp only [List.length_append, List.length_singleton, hl0]
            push_cast
            omega
    | some e =>
      cases w with
      | false =>
        simp only [addTaskR, hb]
        exact ⟨h0, hlen, hu, hr⟩
      | true =>
        simp only [addTaskR, hb]
        rw [if_neg (show ¬(true = false) by decide)]
        refine ⟨?_, ?_, hu, hr⟩
        · try dsimp only
          omega
        · try dsimp only
          simp only [List.length_append, List.length_singleton]
          push_cast
          omega

/-- `addTaskR` can throw the positive-count `TypeError` or a user error, but
never the negative-count `TypeError` (that one lives in `dec`). -/
theorem addTaskR_result_not_negcount (rcb : RCallback) (fuel : Nat)
    (s : GroupState) (w : Bool) :
    (addTaskR rcb fuel s w).1 ≠ Except.error GErr.typeErrorNegCount := by
  cases fuel with
  | zero => simp [addTaskR]
  | succ f =>
    cases hb : s.barrier with
    | none =>
      cases w with
      | false => simp [addTaskR, hb]
      | true =>
        simp only [addTaskR, hb]
        by_cases hc : s.count ≠ 0
        · rw [if_pos hc]
          simp
        · rw [if_neg hc]
          try dsimp only
          cases (rcb (s.callbackLog.length) true).thrown <;> simp
    | some e =>
      cases w with
      | false => simp [addTaskR, hb]
      | true => simp [addTaskR, hb]

/-- `decR` preserves `RInv` when entered with a positive count (as the
reachable call site guarantees): the decrement cannot go negative even if
the callback re-enters `addTask`. -/
theorem rInv_decR (rcb : RCallback) (fuel : Nat) (s : GroupState)
    (h1 : 1 ≤ s.count) (hlen : (s.pendingTasks.length : Int) ≤ s.count - 1)
    (hu : GErr.typeErrorNegCount ∉ s.uncaught)
    (hr : Except.error GErr.typeErrorNegCount ∉ s.returns) :
    RInv (decR rcb fuel s) := by
  unfold decR
  have hnn : ¬ s.count - 1 < 0 := by omega
  rw [if_neg hnn]
  split
  case isTrue hpos =>
    exact ⟨by try dsimp only; omega, by try dsimp only; omega, hu, hr⟩
  case isFalse hnpos =>
    have hzero : s.count - 1 = 0 := by omega
    try dsimp only
    have hs2 : RInv ((rcb s.callbackLog.length false).adds.foldl
        (fun st w => (addTaskR rcb fuel st w).2)
        { s with count := s.count - 1, callbackLog := s.callbackLog ++ [false] }) := by
      refine rInv_foldl_addTaskR rcb fuel (rInv_addTaskR rcb fuel) _ _ ?_
      exact ⟨by try dsimp only; omega, by try dsimp only; omega, hu, hr⟩
    obtain ⟨k0, klen, ku, kr⟩ := hs2
    cases hact : (rcb s.callbackLog.length false).thrown with
    | some n =>
      exact ⟨k0, klen, by simpa using ku, kr⟩
    | none =>
      cases hb2 : ((rcb s.callbackLog.length false).adds.foldl
          (fun st w => (addTaskR rcb fuel st w).2)
          { s with count := s.count - 1, callbackLog := s.callbackLog ++ [false] }).barrier with
      | none =>
        exact ⟨k0, klen, by simpa using ku, kr⟩
      | some e =>
        exact ⟨k0, klen, ku, kr⟩

/-- `groupStepR` preserves `RInv`. -/
theorem rInv_stepR (rcb : RCallback) (fuel : Nat) (s : GroupState)
    (ev : GEvent) (h : RInv s) : RInv (groupStepR rcb fuel s ev) := by
  obtain ⟨h0, hlen, hu, hr⟩ := h
  cases ev with
  | add w =>
    simp only [groupStepR]
    obtain ⟨k0, klen, ku, kr⟩ := rInv_addTaskR rcb fuel s w ⟨h0, hlen, hu, hr⟩
    refine ⟨k0, klen, ku, ?_⟩
    dsimp only
    intro hmem2
    rcases List.mem_append.mp hmem2 with h2 | h2
    · exact kr h2
    · rw [List.mem_singleton] at h2
      exact addTaskR_result_not_negcount rcb fuel s w h2.symm
  | succeed tid =>
    simp only [groupStepR]
    split
    case isFalse => exact ⟨h0, hlen, hu, hr⟩
    case isTrue hmem =>
      have hlpos : 1 ≤ s.pendingTasks.length :=
        List.length_pos.mpr (List.ne_nil_of_mem hmem)
      have herase : (s.pendingTasks.erase tid).length
          = s.pendingTasks.length - 1 := List.length_erase_of_mem hmem
      refine rInv_decR rcb fuel _ (by dsimp only; omega) ?_ (by simpa using hu)
        (by simpa using hr)
      dsimp only
      rw [herase]
      push_cast [Nat.cast_sub hlpos]
      omega
  | fail tid err =>
    simp only [groupStepR]
    split
    case isFalse => exact ⟨h0, hlen, hu, hr⟩
    case isTrue hmem =>
      have hlpos : 1 ≤ s.pendingTasks.length :=
        List.length_pos.mpr (List.ne_nil_of_mem hmem)
      have herase : (s.pendingTasks.erase tid).length
          = s.pendingTasks.length - 1 := List.length_erase_of_mem hmem
      refine ⟨h0, ?_, by simpa using hu, by simpa using hr⟩
      dsimp only
      rw [herase]
      push_cast [Nat.cast_sub hlpos]
      omega

/-- Every state reachable through the public interface satisfies `RInv`,
whatever the occupancy callback does. -/
theorem rInv_runR (rcb : RCallback) (fuel : Nat) (evs : List GEvent) :
    RInv (runGroupR rcb fuel evs) := by
  have main : ∀ (l : List GEvent) (s : GroupState), RInv s →
      RInv (l.foldl (groupStepR rcb fuel) s) := by
    intro l
    induction l with
    | nil => intro s hs; exact hs
    | cons e rest ihe =>
      intro s hs
      exact ihe _ (rInv_stepR rcb fuel s e hs)
  refine main evs initGroup ?_
  exact ⟨by norm_num [initGroup], by norm_num [initGroup],
    by simp [initGroup], by simp [initGroup]⟩

/-- With a callback whose scripts perform no re-entrant calls, `addTaskR`
is exactly `addTask`. -/
theorem addTaskR_no_reentry (cb : Callback) (fuel : Nat) (s : GroupState)
    (w : Bool) :
    addTaskR (fun _ b => { adds := [], thrown := cb b }) (fuel + 1) s w
      = addTask cb s w := by
  cases hb : s.barrier with
  | none =>
    cases w with
    | false => simp [addTaskR, addTask, hb]
    | true =>
      simp only [addTaskR, addTask, hb]
      by_cases hc : s.count ≠ 0
      · rw [if_pos hc, if_pos hc]
      · rw [if_neg hc, if_neg hc]
        cases hcb : cb true <;> simp [hcb]
  | some e =>
    cases w with
    | false => simp [addTaskR, addTask, hb]
    | true => simp [addTaskR, addTask, hb]

/-- With a callback whose scripts perform no re-entrant calls, `decR` is
exactly `dec`. -/
theorem decR_no_reentry (cb : Callback) (fuel : Nat) (s : GroupState) :
    decR (fun _ b => { adds := [], thrown := cb b }) fuel s = dec cb s := by
  unfold decR dec
  dsimp only
  by_cases h1 : s.count - 1 < 0
  · rw [if_pos h1, if_pos h1]
  · rw [if_neg h1, if_neg h1]
    by_cases h2 : s.count - 1 > 0
    · rw [if_pos h2, if_pos h2]
    · rw [if_neg h2, if_neg h2]
      cases hcb : cb false with
      | some n => rfl
      | none => cases hb : s.barrier <;> rfl

/-- The non-re-entrant model `runGroup` is the no-re-entry special case of
`runGroupR`. -/
theorem runGroupR_no_reentry (cb : Callback) (fuel : Nat) (evs : List GEvent) :
    runGroupR (fun _ b => { adds := [], thrown := cb b }) (fuel + 1) evs
      = runGroup cb evs := by
  have hstep : ∀ (s : GroupState) (ev : GEvent),
      groupStepR (fun _ b => { adds := [], thrown := cb b }) (fuel + 1) s ev
        = groupStep cb s ev := by
    intro s ev
    cases ev with
    | add w => simp only [groupStepR, groupStep, addTaskR_no_reentry]
    | succeed tid => simp only [groupStepR, groupStep, decR_no_reentry]
    | fail tid err => rfl
  have main : ∀ (l : List GEvent) (s : GroupState),
      l.foldl (groupStepR (fun _ b => { adds := [], thrown := cb b }) (fuel + 1)) s
        = l.foldl (groupStep cb) s := by
    intro l
    induction l with
    | nil => intro s; rfl
    | cons e rest ihe =>
      intro s
      rw [List.foldl_cons, List.foldl_cons, hstep, ihe]
  exact main evs initGroup

/-- C8 counterexample.  An occupancy callback that re-enters `addTask(task)`
while reporting the non-empty→empty transition makes the positive-count
`TypeError` reachable through the public interface: `g(task1)`; `task1`
succeeds; inside `dec`, `callback(false)` re-enters `g(task2)` while `p` is
still set (count 0 → 1, task2 attaches to the old barrier), then `dec`
continues with `resolve(); p = null` — leaving `count = 1` with `p = null`.
The next `g(task3)` takes the `promiseWasNull` branch and throws
`TypeError('expective +ve count for Promise creation')` (line 177), which
the run's third return records. -/
theorem group_reentrant_callback_reaches_poscount_check :
    (runGroupR rcbReenter 5
        [GEvent.add true, GEvent.succeed 0, GEvent.add true]).returns
      = [Except.ok (AddResult.barrier 0), Except.error GErr.typeErrorPosCount] ∧
    Except.error GErr.typeErrorPosCount ∈
      (runGroupR rcbReenter 5
        [GEvent.add true, GEvent.succeed 0, GEvent.add true]).returns := by
  decide

/-- C8 as amended.  For every wait group and every event sequence reachable
through the public interface the count is never negative and the
negative-count check in `dec` is unreachable, even when the occupancy
callback re-enters `addTask` (first conjunct, over the re-entrant model);
the non-zero-count check at barrier creation is unreachable provided the
occupancy callback does not re-enter `addTask` (second conjunct) — with a
re-entering callback it is reachable, as
`group_reentrant_callback_reaches_poscount_check` shows. -/
theorem group_count_nonneg_negcount_unreachable :
    (∀ (rcb : RCallback) (fuel : Nat) (evs : List GEvent),
      0 ≤ (runGroupR rcb fuel evs).count ∧
      GErr.typeErrorNegCount ∉ (runGroupR rcb fuel evs).uncaught ∧
      Except.error GErr.typeErrorNegCount ∉ (runGroupR rcb fuel evs).returns) ∧
    (∀ (cb : Callback) (evs : List GEvent),
      0 ≤ (runGroup cb evs).count ∧
      GErr.typeErrorNegCount ∉ (runGroup cb evs).uncaught ∧
      GErr.typeErrorPosCount ∉ (runGroup cb evs).uncaught ∧
      Except.error GErr.typeErrorNegCount ∉ (runGroup cb evs).returns ∧
      Except.error GErr.typeErrorPosCount ∉ (runGroup cb evs).returns) := by
  constructor
  · intro rcb fuel evs
    obtain ⟨h0, hlen, hu, hr⟩ := rInv_runR rcb fuel evs
    exact ⟨h0, hu, hr⟩
  · intro cb evs
    obtain ⟨h0, hlen, hempty, u1, u2, u3, r1, r2, r3⟩ := groupInv_run cb evs
    exact ⟨h0, u1, u2, r1, r2⟩

/-- Witness for C8 (amended), at the counterexample's own re-entrant run and
at a non-re-entrant run with a throwing callback. -/
theorem group_count_nonneg_negcount_unreachable_w :
    (0 ≤ (runGroupR rcbReenter 5
        [GEvent.add true, GEvent.succeed 0, GEvent.add true]).count ∧
     GErr.typeErrorNegCount ∉ (runGroupR rcbReenter 5
        [GEvent.add true, GEvent.succeed 0, GEvent.add true]).uncaught ∧
     Except.error GErr.typeErrorNegCount ∉ (runGroupR rcbReenter 5
        [GEvent.add true, GEvent.succeed 0, GEvent.add true]).returns) ∧
    Except.error GErr.typeErrorPosCount ∉
      (runGroup cbThrowFalse [GEvent.add true, GEvent.succeed 0]).returns :=
  ⟨group_count_nonneg_negcount_unreachable.1 rcbReenter 5
      [GEvent.add true, GEvent.succeed 0, GEvent.add true],
   (group_count_nonneg_negcount_unreachable.2 cbThrowFalse
      [GEvent.add true, GEvent.succeed 0]).2.2.2.2⟩

/-- C10.  If the occupancy callback throws on the empty→non-empty transition,
the exception reaches the caller of `addTask(task)` synchronously (here as
the call's `Except.error` outcome), yet the resulting state is exactly the
state a non-throwing callback would have produced: the count is incremented,
the barrier exists, the task handler is attached, and the group behaves
afterwards as if the add had succeeded. -/
theorem group_callback_true_throw_still_tracks (cb : Callback) (s : GroupState)
    (n : Nat) (hcb : cb true = some n) (hb : s.barrier = none)
    (hc : s.count = 0) :
    addTask cb s true =
      (Except.error (GErr.userError n),
       (addTask (fun b => if b then none else cb b) s true).2) ∧
    (addTask cb s true).2.count = s.count + 1 ∧
    (addTask cb s true).2.barrier = some s.nextBarrier ∧
    (addTask cb s true).2.pendingTasks = s.pendingTasks ++ [s.nextTask] := by
  simp [addTask, hb, hc, hcb]

/-- Witness for C10: a callback that throws user error 5 on `true`, applied
to the empty group. -/
theorem group_callback_true_throw_still_tracks_w :
    cbThrowTrue true = some 5 ∧
    (addTask cbThrowTrue initGroup true).2.count = initGroup.count + 1 ∧
    (addTask cbThrowTrue initGroup true).2.barrier = some initGroup.nextBarrier ∧
    (addTask cbThrowTrue initGroup true).2.pendingTasks =
      initGroup.pendingTasks ++ [initGroup.nextTask] :=
  ⟨rfl,
   (group_callback_true_throw_still_tracks cbThrowTrue initGroup 5 rfl rfl rfl).2.1,
   (group_callback_true_throw_still_tracks cbThrowTrue initGroup 5 rfl rfl rfl).2.2.1,
   (group_callback_true_throw_still_tracks cbThrowTrue initGroup 5 rfl rfl rfl).2.2.2⟩

/-! ## Theorems: event adapter -/

/-- C9.  The claim says `event(target, name)` settles with the `Event`
object.  The code refutes that part: the handler is `() => { resolve();
target.removeEventListener(name, handler); }`, so the promise fulfils with
`undefined` (`some none` in the model), not with the dispatched `Event`
object (id 5 here) — contradicting the function's own JSDoc
`@return {!Promise<!Event>}`.  The listener-bookkeeping part of the claim
does hold on this input: exactly one listener is registered and it is
removed exactly once, even when the event keeps firing. -/
theorem event_settles_with_undefined_listener_once :
    (runEvent [5]).result = some none ∧
    (runEvent [5]).result ≠ some (some 5) ∧
    (runEvent [5]).addCount = 1 ∧
    (runEvent [5]).removeCount = 1 ∧
    (runEvent [5, 6, 7]).addCount = 1 ∧
    (runEvent [5, 6, 7]).removeCount = 1 := by
  decide

/-! ## Theorems: call coalescer -/

/-- While a window is pending, further calls only overwrite `lastArguments`
and hand back the same window promise `w`. -/
theorem dedup_pending_calls (fn : Fn) :
    ∀ (calls : List (List Nat)) (la : List Nat) (s : DedupState) (w : Nat),
      s.p = some w → calls.getLast? = some la →
      (calls.map DEvent.call).foldl (dedupStep fn) s =
        { s with
          lastArguments := some la
          callReturns := s.callReturns ++ List.replicate calls.length w } := by
  intro calls
  induction calls with
  | nil =>
    intro la s w hp hl
    simp at hl
  | cons a rest ih =>
    intro la s w hp hl
    have hstep : dedupStep fn s (DEvent.call a) =
        { s with lastArguments := some a, callReturns := s.callReturns ++ [w] } := by
      simp [dedupStep, hp]
    cases rest with
    | nil =>
      simp only [List.map_cons, List.map_nil, List.foldl_cons, List.foldl_nil, hstep]
      simp at hl
      subst hl
      simp
    | cons b rest2 =>
      rw [List.getLast?_cons_cons] at hl
      simp only [List.map_cons, List.foldl_cons] at ih ⊢
      rw [hstep, ih la _ w (by simp [hp]) hl]
      simp [List.replicate_succ]

/-- C6.  Starting from any idle state (`p === null`), a burst of `M ≥ 1`
calls followed by the window elapsing invokes `fn` exactly once, with
exactly the arguments `la` of the last call of the burst; every call of the
burst returned the same shared window promise (epoch `nextWindow` of the
starting state, `M` times), and that promise settles with `fn la` — `fn`'s
value or its thrown failure.  Afterwards the coalescer is idle again. -/
theorem dedup_burst_single_invocation_last_args (fn : Fn) (s0 : DedupState)
    (burst : List (List Nat)) (la : List Nat)
    (h0 : s0.p = none) (hl : burst.getLast? = some la) :
    ((burst.map DEvent.call ++ [DEvent.elapse]).foldl (dedupStep fn) s0).invocations
        = s0.invocations ++ [la] ∧
    ((burst.map DEvent.call ++ [DEvent.elapse]).foldl (dedupStep fn) s0).callReturns
        = s0.callReturns ++ List.replicate burst.length s0.nextWindow ∧
    ((burst.map DEvent.call ++ [DEvent.elapse]).foldl (dedupStep fn) s0).windowResults
        = s0.windowResults ++ [(s0.nextWindow, fn la)] ∧
    ((burst.map DEvent.call ++ [DEvent.elapse]).foldl (dedupStep fn) s0).p = none := by
  cases burst with
  | nil => simp at hl
  | cons a rest =>
    have hstep : dedupStep fn s0 (DEvent.call a) =
        { s0 with
          lastArguments := some a
          p := some s0.nextWindow
          nextWindow := s0.nextWindow + 1
          callReturns := s0.callReturns ++ [s0.nextWindow] } := by
      simp [dedupStep, h0]
    cases rest with
    | nil =>
      simp at hl
      subst hl
      rw [List.foldl_append]
      simp only [List.map_cons, List.map_nil, List.foldl_cons, List.foldl_nil, hstep]
      simp [dedupStep]
    | cons b rest2 =>
      rw [List.getLast?_cons_cons] at hl
      rw [List.foldl_append]
      have hmap : List.map DEvent.call (a :: b :: rest2)
          = DEvent.call a :: List.map DEvent.call (b :: rest2) := rfl
      rw [hmap]
      simp only [List.foldl_cons, List.foldl_nil]
      rw [hstep, dedup_pending_calls fn (b :: rest2) la _ s0.nextWindow (by simp) hl]
      simp [dedupStep, List.replicate_succ]

/-- Witness for C6: a burst of two calls (`[1]` then `[2]`) from the initial
state; `fn` runs once with `[2]` and both calls share window promise 0. -/
theorem dedup_burst_single_invocation_last_args_w :
    (([[1], [2]].map DEvent.call ++ [DEvent.elapse]).foldl (dedupStep fnHead)
        initDedup).invocations = [[2]] ∧
    (([[1], [2]].map DEvent.call ++ [DEvent.elapse]).foldl (dedupStep fnHead)
        initDedup).callReturns = [0, 0] ∧
    (([[1], [2]].map DEvent.call ++ [DEvent.elapse]).foldl (dedupStep fnHead)
        initDedup).windowResults = [(0, Except.ok 2)] := by
  have h := dedup_burst_single_invocation_last_args fnHead initDedup [[1], [2]] [2]
    rfl rfl
  exact ⟨h.1, h.2.1, h.2.2.1⟩

/-! ## Theorems: single-flight runner -/

/-- Without an abort settlement the race never resolves to the abort. -/
theorem stepRace_none_not_aborted (sched : Sched) (tNow aw : Nat) :
    stepRace sched none tNow aw ≠ RaceResult.aborted := by
  cases hs : sched aw with
  | none => simp [stepRace, hs]
  | some p =>
    obtain ⟨tY, v⟩ := p
    simp [stepRace, hs]

/-- An invocation whose abort channel is never settled (the most recent
call) cannot resolve to the Takeover Marker. -/
theorem runSteps_no_abort_no_takeover (gen : Gen) (args : List Nat)
    (sched : Sched) :
    ∀ (fuel : Nat) (resumes : List Nat) (tNow : Nat),
      runSteps gen args none sched fuel resumes tNow ≠ InvOutcome.takeover := by
  intro fuel
  induction fuel with
  | zero =>
    intro resumes tNow h
    simp [runSteps] at h
  | succ f ih =>
    intro resumes tNow h
    simp only [runSteps] at h
    split at h
    · exact InvOutcome.noConfusion h
    · split at h
      · next hr => exact stepRace_none_not_aborted sched tNow _ hr
      · exact InvOutcome.noConfusion h
      · next v t hr => exact ih _ t h

/-- If an invocation with abort turn `ta` completes with the generator's
value in turn `T`, then either the generator returned without any further
resumption (`T` is the entry turn), or the completion happened strictly
before the abort: every race it survived forced `ta` past its resumption
turn. -/
theorem runSteps_value_bound (gen : Gen) (args : List Nat) (ta : Nat)
    (sched : Sched) :
    ∀ (fuel : Nat) (resumes : List Nat) (tNow v T k : Nat),
      runSteps gen args (some ta) sched fuel resumes tNow
          = InvOutcome.value v T k →
      (T = tNow ∧ k = resumes.length) ∨ T < ta := by
  intro fuel
  induction fuel with
  | zero =>
    intro resumes tNow v T k h
    simp [runSteps] at h
  | succ f ih =>
    intro resumes tNow v T k h
    simp only [runSteps] at h
    split at h
    · obtain ⟨-, hT, hk⟩ := InvOutcome.value.inj h
      exact Or.inl ⟨hT.symm, hk.symm⟩
    · next aw hg =>
      split at h
      · exact InvOutcome.noConfusion h
      · exact InvOutcome.noConfusion h
      · next v2 t hr =>
        have hlt : t < ta := by
          cases hs : sched aw with
          | none => simp [stepRace, hs] at hr
          | some p =>
            obtain ⟨tY, u⟩ := p
            simp only [stepRace, hs] at hr
            by_cases hcmp : ta ≤ max tNow tY
            · rw [if_pos hcmp] at hr
              exact RaceResult.noConfusion hr
            · rw [if_neg hcmp] at hr
              obtain ⟨-, ht⟩ := RaceResult.resumed.inj hr
              omega
        rcases ih (resumes ++ [v2]) t v T k h with ⟨hT, -⟩ | hT
        · exact Or.inr (hT ▸ hlt)
        · exact Or.inr hT

/-- `runCalls` produces one outcome per call. -/
theorem runCalls_length (gen : Gen) (sched : Sched) (fuel : Nat) :
    ∀ calls : List (Nat × List Nat),
      (runCalls gen sched fuel calls).length = calls.length := by
  intro calls
  induction calls with
  | nil => rfl
  | cons c rest ih => simp [runCalls, ih]

/-- The `i`-th outcome of `runCalls` is the `i`-th invocation, run with its
abort channel settled at the turn of call `i + 1` (if any). -/
theorem runCalls_get? (gen : Gen) (sched : Sched) (fuel : Nat) :
    ∀ (calls : List (Nat × List Nat)) (i : Nat) (c : Nat × List Nat),
      calls.get? i = some c →
      (runCalls gen sched fuel calls).get? i =
        some (runInvocation gen c.2 c.1 ((calls.get? (i + 1)).map Prod.fst)
          sched fuel) := by
  intro calls
  induction calls with
  | nil =>
    intro i c h
    simp at h
  | cons d rest ih =>
    intro i c h
    cases i with
    | zero =>
      simp only [List.get?_cons_zero, Option.some.injEq] at h
      subst h
      simp only [runCalls, List.get?_cons_zero, List.get?_cons_succ]
      rw [List.get?_zero]
    | succ k =>
      simp only [List.get?_cons_succ] at h
      simp only [runCalls, List.get?_cons_succ]
      exact ih k c h

/-- In a turn-monotone call list, the head call's turn bounds every later
call's turn. -/
theorem chain'_head_le :
    ∀ (rest : List (Nat × List Nat)) (c : Nat × List Nat) (n : Nat)
      (x : Nat × List Nat),
      List.Chain' (fun p q : Nat × List Nat => p.1 ≤ q.1) (c :: rest) →
      rest.get? n = some x → c.1 ≤ x.1 := by
  intro rest
  induction rest with
  | nil =>
    intro c n x h hx
    simp at hx
  | cons d rest2 ih =>
    intro c n x h hx
    rw [List.chain'_cons] at h
    cases n with
    | zero =>
      simp only [List.get?_cons_zero, Option.some.injEq] at hx
      subst hx
      exact h.1
    | succ k =>
      simp only [List.get?_cons_succ] at hx
      exact le_trans h.1 (ih d k x h.2 hx)

/-- Turn monotonicity extends to arbitrary index pairs. -/
theorem turns_le_of_chain' :
    ∀ (calls : List (Nat × List Nat)) (p q : Nat) (xp xq : Nat × List Nat),
      List.Chain' (fun a b : Nat × List Nat => a.1 ≤ b.1) calls →
      p ≤ q → calls.get? p = some xp → calls.get? q = some xq →
      xp.1 ≤ xq.1 := by
  intro calls
  induction calls with
  | nil =>
    intro p q xp xq h hpq hp hq
    simp at hp
  | cons c rest ih =>
    intro p q xp xq h hpq hp hq
    cases p with
    | zero =>
      simp only [List.get?_cons_zero, Option.some.injEq] at hp
      subst hp
      cases q with
      | zero =>
        simp only [List.get?_cons_zero, Option.some.injEq] at hq
        subst hq
        exact le_refl _
      | succ k =>
        simp only [List.get?_cons_succ] at hq
        exact chain'_head_le rest _ k xq h hq
    | succ j =>
      cases q with
      | zero => omega
      | succ k =>
        simp only [List.get?_cons_succ] at hp hq
        have htail : List.Chain' (fun a b : Nat × List Nat => a.1 ≤ b.1) rest := by
          cases rest with
          | nil => exact List.chain'_nil
          | cons e rest3 => exact (List.chain'_cons.mp h).2
        exact ih j k xp xq htail (by omega) hp hq

/-- Every non-final invocation of a burst resolves to the Takeover Marker. -/
theorem runCalls_burst_takeover (gen : Gen) (sched : Sched) (fuel : Nat)
    (hfuel : 1 ≤ fuel) :
    ∀ (calls : List (Nat × List Nat)),
      List.Chain' (burstCond gen sched) calls →
      ∀ i, i + 1 < calls.length →
        (runCalls gen sched fuel calls).get? i = some InvOutcome.takeover := by
  intro calls
  induction calls with
  | nil =>
    intro h i hi
    simp at hi
  | cons c rest ih =>
    intro h i hi
    cases rest with
    | nil => simp at hi
    | cons d rest2 =>
      rw [List.chain'_cons] at h
      cases i with
      | zero =>
        obtain ⟨aw, hyield, hle⟩ := h.1
        obtain ⟨f, rfl⟩ : ∃ f, fuel = f + 1 := ⟨fuel - 1, by omega⟩
        simp only [runCalls, List.get?_cons_zero, Option.some.injEq,
          List.head?_cons, Option.map_some']
        have habort : stepRace sched (some d.1) c.1 aw = RaceResult.aborted := by
          cases hs : sched aw with
          | none => simp [stepRace, hs]
          | some p =>
            obtain ⟨tY, v⟩ := p
            have hcmp := hle tY v hs
            simp only [stepRace, hs]
            rw [if_pos hcmp]
        rw [runInvocation]
        simp only [runSteps, hyield, habort]
      | succ k =>
        simp only [runCalls, List.get?_cons_succ]
        exact ih h.2 k (by simpa using hi)

/-- The final invocation (whose abort channel is never settled) cannot
resolve to the Takeover Marker. -/
theorem runCalls_getLast?_not_takeover (gen : Gen) (sched : Sched)
    (fuel : Nat) :
    ∀ (calls : List (Nat × List Nat)) (o : InvOutcome),
      (runCalls gen sched fuel calls).getLast? = some o →
      o ≠ InvOutcome.takeover := by
  intro calls
  induction calls with
  | nil =>
    intro o h
    simp [runCalls] at h
  | cons c rest ih =>
    intro o h
    cases rest with
    | nil =>
      have hx : o = runInvocation gen c.2 c.1 none sched fuel := by
        have h2 : (runCalls gen sched fuel [c]).getLast? =
            some (runInvocation gen c.2 c.1 none sched fuel) := rfl
        rw [h2] at h
        exact (Option.some.injEq _ _).mp h.symm
      rw [hx]
      exact runSteps_no_abort_no_takeover gen c.2 sched fuel [] c.1
    | cons d rest2 =>
      have hshape : runCalls gen sched fuel (c :: d :: rest2) =
          runInvocation gen c.2 c.1 (some d.1) sched fuel ::
            (runInvocation gen d.2 d.1 (rest2.head?.map Prod.fst) sched fuel ::
              runCalls gen sched fuel rest2) := rfl
      rw [hshape, List.getLast?_cons_cons] at h
      exact ih o h

/-- C3 counterexample.  With a generator that returns immediately, two
sequential calls (turns 0 and 5) both complete with their generators' true
return values and neither resolves to the Takeover Marker — so "at most one
invocation ever completes with the generator's true return value; every
other invocation resolves to the Takeover Marker" is false as stated. -/
theorem single_sequential_calls_both_complete :
    (runCalls genConst (fun _ => none) 1 [(0, [1]), (5, [2])]).countP isTrueValue
        = 2 ∧
    InvOutcome.takeover ∉ runCalls genConst (fun _ => none) 1 [(0, [1]), (5, [2])] := by
  decide

/-- C3 as amended: among overlapping invocations, at most one completes with
the generator's true value.  Precisely: if invocation `i` completes with the
generator's value in turn `Ti` after at least one resumption, it does so
strictly before any later call `j` starts — a newer call while `i` is still
suspended would instead force `i` to the Takeover Marker at its next race.
Sequential, non-overlapping invocations may each complete normally. -/
theorem single_value_completion_precedes_later_call
    (gen : Gen) (sched : Sched) (fuel : Nat) (calls : List (Nat × List Nat))
    (i j vi Ti ki tj : Nat) (aj : List Nat)
    (hmono : List.Chain' (fun p q : Nat × List Nat => p.1 ≤ q.1) calls)
    (hij : i < j)
    (hi : (runCalls gen sched fuel calls).get? i
        = some (InvOutcome.value vi Ti ki))
    (hki : 1 ≤ ki)
    (hj : calls.get? j = some (tj, aj)) :
    Ti < tj := by
  have hjlen : j < calls.length := (List.get?_eq_some.mp hj).1
  have hilen : i < calls.length := lt_trans hij hjlen
  have hi1len : i + 1 < calls.length := by omega
  obtain ⟨ci, hci⟩ : ∃ ci, calls.get? i = some ci := by
    rw [List.get?_eq_get hilen]
    exact ⟨_, rfl⟩
  obtain ⟨ci1, hci1⟩ : ∃ ci1, calls.get? (i + 1) = some ci1 := by
    rw [List.get?_eq_get hi1len]
    exact ⟨_, rfl⟩
  have hrc := runCalls_get? gen sched fuel calls i ci hci
  rw [hi, hci1] at hrc
  have hrun : runInvocation gen ci.2 ci.1 (some ci1.1) sched fuel
      = InvOutcome.value vi Ti ki := by
    simpa using hrc.symm
  rw [runInvocation] at hrun
  rcases runSteps_value_bound gen ci.2 ci1.1 sched fuel [] ci.1 vi Ti ki hrun
    with ⟨-, hk0⟩ | hlt
  · simp at hk0
    omega
  · have hle : ci1.1 ≤ tj :=
      turns_le_of_chain' calls (i + 1) j ci1 (tj, aj) hmono (by omega) hci1 hj
    omega

/-- Witness for C3 (amended): with `genOnce` and awaitable 0 settling in
turn 1, call 1 (turn 0) completes with its value in turn 1 after one
resumption, and the theorem places that completion strictly before call 2
(turn 5). -/
theorem single_value_completion_precedes_later_call_w :
    (runCalls genOnce schedTurn1 3 [(0, [7]), (5, [8])]).get? 0
        = some (InvOutcome.value 7 1 1) ∧
    (1 : Nat) < 5 := by
  refine ⟨by decide, ?_⟩
  refine single_value_completion_precedes_later_call genOnce schedTurn1 3
    [(0, [7]), (5, [8])] 0 1 7 1 1 5 [8] ?_ (by omega) (by decide) (by omega)
    (by decide)
  exact List.chain'_cons.mpr ⟨by omega, List.chain'_singleton _⟩

/-- C4.  For a burst of calls in which each earlier call's generator is
suspended at its first yield and not yet resumed when the next call starts
(`burstCond` between consecutive calls), every call but the last resolves to
the Takeover Marker, and the last call — whose abort channel is never
settled — can never resolve to the Takeover Marker, so only its generator
may return its true final value. -/
theorem single_burst_all_but_last_takeover
    (gen : Gen) (sched : Sched) (fuel : Nat) (calls : List (Nat × List Nat))
    (hfuel : 1 ≤ fuel)
    (hburst : List.Chain' (burstCond gen sched) calls) :
    (∀ i, i + 1 < calls.length →
      (runCalls gen sched fuel calls).get? i = some InvOutcome.takeover) ∧
    (∀ o, (runCalls gen sched fuel calls).getLast? = some o →
      o ≠ InvOutcome.takeover) :=
  ⟨runCalls_burst_takeover gen sched fuel hfuel calls hburst,
   runCalls_getLast?_not_takeover gen sched fuel calls⟩

/-- Witness for C4: the suite's scenario — `single(1)` then `single(2)`
before awaitable 0 settles (turn 2).  Call 1 resolves to the Takeover
Marker; call 2 completes with value 2 (and is not a takeover). -/
theorem single_burst_all_but_last_takeover_w :
    (runCalls genOnce schedTurn2 3 [(0, [1]), (1, [2])]).get? 0
        = some InvOutcome.takeover ∧
    (runCalls genOnce schedTurn2 3 [(0, [1]), (1, [2])]).getLast?
        = some (InvOutcome.value 2 2 1) ∧
    InvOutcome.value 2 2 1 ≠ InvOutcome.takeover := by
  have hchain : List.Chain' (burstCond genOnce schedTurn2) [(0, [1]), (1, [2])] := by
    refine List.chain'_cons.mpr ⟨⟨0, rfl, ?_⟩, List.chain'_singleton _⟩
    intro tY v hs
    simp [schedTurn2] at hs
    omega
  have h := single_burst_all_but_last_takeover genOnce schedTurn2 3
    [(0, [1]), (1, [2])] (by omega) hchain
  exact ⟨h.1 0 (by simp), by decide, h.2 (InvOutcome.value 2 2 1) (by decide)⟩

/-- C5.  Tie-break: when both the yielded awaitable and the invocation's
abort channel are already settled as the race is performed, the abort wins
and the invocation resolves to the Takeover Marker instead of resuming.
First conjunct: on the explicit microtask queue, whichever order the
thenable-adoption job (for the settled yielded promise) and the abort
reaction are enqueued in, the race settles to the abort symbol — delivering
the yielded value needs two further queued jobs, the abort only one.
Second conjunct: consequently an invocation whose first yield `aw` is
already settled (`tY ≤ t0`) and whose abort channel is settled in the same
turn (`ta ≤ t0`, the superseding call) resolves to the Takeover Marker. -/
theorem single_race_tie_abort_wins
    (gen : Gen) (args : List Nat) (t0 aw tY v ta fuel : Nat) (sched : Sched)
    (hy : gen args [] = GenStep.yields aw)
    (hs : sched aw = some (tY, v))
    (_htY : tY ≤ t0) (hta : ta ≤ t0) (hfuel : 1 ≤ fuel) :
    (∀ w : Nat,
      (mdrain 6 { raceResult := none, queue := [MJob.thenableJob w, MJob.lToR] }).raceResult
          = some RaceWin.abortSymbolWin ∧
      (mdrain 6 { raceResult := none, queue := [MJob.lToR, MJob.thenableJob w] }).raceResult
          = some RaceWin.abortSymbolWin) ∧
    runInvocation gen args t0 (some ta) sched fuel = InvOutcome.takeover := by
  constructor
  · intro w
    exact ⟨rfl, rfl⟩
  · obtain ⟨f, rfl⟩ : ∃ f, fuel = f + 1 := ⟨fuel - 1, by omega⟩
    have habort : stepRace sched (some ta) t0 aw = RaceResult.aborted := by
      have hcmp : ta ≤ max t0 tY := le_trans hta (Nat.le_max_left _ _)
      simp only [stepRace, hs]
      rw [if_pos hcmp]
    rw [runInvocation]
    simp only [runSteps, hy, habort]

/-- Witness for C5: `genOnce` yields awaitable 0, already settled in turn 0
(`schedTurn0`), and a second call in the same turn 0 settles the abort
channel; the invocation resolves to the Takeover Marker. -/
theorem single_race_tie_abort_wins_w :
    genOnce [1] [] = GenStep.yields 0 ∧
    schedTurn0 0 = some (0, 4) ∧
    (mdrain 6 { raceResult := none, queue := [MJob.thenableJob 4, MJob.lToR] }).raceResult
        = some RaceWin.abortSymbolWin ∧
    runInvocation genOnce [1] 0 (some 0) schedTurn0 3 = InvOutcome.takeover := by
  have h := single_race_tie_abort_wins genOnce [1] 0 0 0 4 0 3 schedTurn0
    rfl rfl (by omega) (by omega) (by omega)
  exact ⟨rfl, rfl, (h.1 4).1, h.2⟩

end Promises
